import Mathlib

/-!
Verification of the authorization-server OAuth-client management core:
scope grammar validator, scope patch engine, ownership guard and the
client CRUD operations, embedded shallowly and checked against the
specification's claims.
-/

/-- Modelled from the spec: splitting a character list at every occurrence of
a separator character (the spec's "splits on `:`" / "splits on `.`").
`splitOnChar sep l` returns the (possibly empty) segments between separators;
it is never the empty list. -/
def splitOnChar (sep : Char) : List Char → List (List Char)
  | [] => [[]]
  | c :: cs =>
    if c = sep then [] :: splitOnChar sep cs
    else
      match splitOnChar sep cs with
      | [] => [[c]]
      | g :: gs => (c :: g) :: gs

/-- Modelled from the spec: splitting a character list at every character
satisfying a predicate (the spec's "splits the scope string on whitespace"). -/
def splitOnPred (p : Char → Bool) : List Char → List (List Char)
  | [] => [[]]
  | c :: cs =>
    if p c then [] :: splitOnPred p cs
    else
      match splitOnPred p cs with
      | [] => [[c]]
      | g :: gs => (c :: g) :: gs

/-- Joining segments with a separator character: the textual form
`g₁ sep g₂ sep … sep gₙ`. -/
def joinSep (sep : Char) : List (List Char) → List Char
  | [] => []
  | [g] => g
  | g :: g' :: gs => g ++ sep :: joinSep sep (g' :: gs)

/-- Modelled from the spec: the closed set of reserved resources
("resource must be in a closed set (e.g. `user`)"), as character lists. -/
def reservedResources : List (List Char) := ["user".data]

/-- Modelled from the spec: the closed per-resource field set
("field must be in a closed per-resource set (e.g. `username`, `pfp` —
NOT `age`, which is deliberately excluded/unreserved)"). -/
def reservedFields (r : List Char) : List (List Char) :=
  if r = "user".data then ["username".data, "pfp".data] else []

/-- Modelled from the spec: the permission vocabulary
("each permission must be in `{read, write}`"). -/
def reservedPermissions : List (List Char) := ["read".data, "write".data]

/-- Modelled from the spec: single scope-token validation (§4.1).
Splits on `:` into resource and remainder (fails unless exactly two parts);
splits the remainder on `.` into field and permissions; checks resource,
field and permissions against the closed vocabulary and requires at least
one permission. -/
def validateToken (t : List Char) : Bool :=
  match splitOnChar ':' t with
  | [r, rest] =>
    match splitOnChar '.' rest with
    | f :: ps =>
      decide (r ∈ reservedResources) && decide (f ∈ reservedFields r) &&
        !ps.isEmpty && ps.all (fun p => decide (p ∈ reservedPermissions))
    | [] => false
  | _ => false

/-- Modelled from the spec: the whitespace-separated tokens of a scope
string (empty fragments between consecutive whitespace characters are not
tokens). -/
def scopeTokens (s : String) : List (List Char) :=
  (splitOnPred Char.isWhitespace s.data).filter (fun t => !t.isEmpty)

/-- Modelled from the spec: whole-scope validation (§4.1) — every
whitespace-separated token of the scope string must be a valid scope token. -/
def validateScope (s : String) : Bool :=
  (scopeTokens s).all validateToken

/-- The spec's declarative token grammar, stated in its words: a token has
the form `resource:field.permission[.permission...]` with the resource in
the closed resource set, the field in the closed per-resource field set,
each permission in {read, write}, and at least one permission present. -/
def TokenWellFormed (t : List Char) : Prop :=
  ∃ r f ps, r ∈ reservedResources ∧ f ∈ reservedFields r ∧ ps ≠ [] ∧
    (∀ p ∈ ps, p ∈ reservedPermissions) ∧
    t = r ++ ':' :: joinSep '.' (f :: ps)

/-- Modelled from the spec: parsing a scope token into its resource, field
and permission segments (the `ParsedToken` of §4.1's contract). -/
def parseToken (t : List Char) : Option (List Char × List Char × List (List Char)) :=
  match splitOnChar ':' t with
  | [r, rest] =>
    match splitOnChar '.' rest with
    | f :: ps => some (r, f, ps)
    | [] => none
  | _ => none

/-- Order-preserving insertion that drops an element already present; used
to build the canonical (deduplicated, sorted) forms the spec requires. -/
def insertSortedDedup (x : List Char) : List (List Char) → List (List Char)
  | [] => [x]
  | y :: ys =>
    if x = y then y :: ys
    else if x < y then x :: y :: ys
    else y :: insertSortedDedup x ys

/-- Insertion sort with deduplication over character lists. -/
def sortDedup : List (List Char) → List (List Char)
  | [] => []
  | x :: xs => insertSortedDedup x (sortDedup xs)

/-- Modelled from the spec: merging a parsed token into a list of parsed
tokens, uniting the permissions of tokens that share the same
(resource, field) pair ("no duplicate (resource,field) pairs unless
permissions are merged"). -/
def mergeParsed (acc : List (List Char × List Char × List (List Char)))
    (e : List Char × List Char × List (List Char)) :
    List (List Char × List Char × List (List Char)) :=
  match acc with
  | [] => [e]
  | (r, f, ps) :: rest =>
    if r = e.1 ∧ f = e.2.1 then (r, f, ps ++ e.2.2) :: rest
    else (r, f, ps) :: mergeParsed rest e

/-- Modelled from the spec: the canonical text of one scope token — its
permissions deduplicated and canonically sorted ("order-independent but
canonically sorted"). -/
def renderToken (r f : List Char) (ps : List (List Char)) : List Char :=
  r ++ ':' :: joinSep '.' (f :: sortDedup ps)

/-- Modelled from the spec: the canonical (deduplicated, sorted) textual
form of a scope string — tokens parsed, same-(resource,field) tokens
merged, each token rendered canonically, and the token set sorted and
joined with single spaces. -/
def canonicalizeScope (s : String) : String :=
  let parsed := (scopeTokens s).filterMap parseToken
  let merged := parsed.foldl mergeParsed []
  let rendered := merged.map (fun e => renderToken e.1 e.2.1 e.2.2)
  ⟨joinSep ' ' (sortDedup rendered)⟩

/-- Modelled from the spec: one element of a scope patch document; each of
`op`, `path`, `value` may be missing (the spec's malformed-document cases). -/
structure RawPatchOp where
  op : Option String
  path : Option String
  value : Option String
deriving DecidableEq

/-- Modelled from the spec: the patch engine's error kinds (§4.2). -/
inductive PatchError
  | MalformedPatch
  | UnsupportedOperation
  | InvalidScope
deriving DecidableEq

/-- Modelled from the spec: the scope patch engine (§4.2). Accepts exactly
a single-element sequence whose element carries `op`, `path` and `value`;
only `op = "replace"` with `path = "/"` is supported; the value must pass
whole-scope validation; the result is the canonicalized value, entirely
overwriting the prior scope. -/
def applyPatch (currentScope : String) (doc : List RawPatchOp) :
    Except PatchError String :=
  match doc with
  | [p] =>
    match p.op, p.path, p.value with
    | some o, some pa, some v =>
      if o = "replace" ∧ pa = "/" then
        if validateScope v then Except.ok (canonicalizeScope v)
        else Except.error PatchError.InvalidScope
      else Except.error PatchError.UnsupportedOperation
    | _, _, _ => Except.error PatchError.MalformedPatch
  | _ => Except.error PatchError.MalformedPatch

/-- Modelled from the spec: an OAuth client registration record (§3). -/
structure OAuthClient where
  client_id : String
  owner : String
  client_name : String
  client_uri : String
  logo_uri : String
  client_secret : String
  redirect_uris : List String
  scope : String
deriving DecidableEq

/-- The persistent store of client records, keyed by `client_id`. -/
abbrev Store := List OAuthClient

/-- Modelled from the spec: the error taxonomy of §7 (400-class kinds). -/
inductive ErrKind
  | MissingField
  | InvalidFieldFormat
  | MalformedPatch
  | UnsupportedOperation
deriving DecidableEq

/-- Modelled from the spec: the caller-visible response of an operation —
status code plus body shape. `notFound` carries nothing: a 404 for an
unowned client is the same value as a 404 for an absent one. -/
inductive Response
  | ok (body : OAuthClient)
  | created (body : OAuthClient)
  | noContent
  | badRequest (e : ErrKind)
  | notFound
deriving DecidableEq

/-- Modelled from the spec: store-adapter lookup of a client by id. -/
def getClientById (store : Store) (cid : String) : Option OAuthClient :=
  store.find? (fun c => c.client_id == cid)

/-- Modelled from the spec: the client ownership authorization guard
(§4.3) — absent id gives nothing; present id owned by a different user
also gives nothing. -/
def authorize (store : Store) (userId cid : String) : Option OAuthClient :=
  match getClientById store cid with
  | none => none
  | some c => if c.owner == userId then some c else none

/-- Modelled from the spec: persisting an updated record over the stored
one with the same client id. -/
def updateStore (store : Store) (cid : String) (c' : OAuthClient) : Store :=
  store.map (fun x => if x.client_id == cid then c' else x)

/-- Modelled from the spec: hard-deleting the record with the given id. -/
def removeClient (store : Store) (cid : String) : Store :=
  store.filter (fun x => !(x.client_id == cid))

/-- Modelled from the spec: the deterministic default logo asset URL the
asset-store collaborator exposes. -/
def defaultLogoURL : String :=
  "http://localhost:5000/static/client/logo/default.png"

/-- Modelled from the spec: the serving URL of a stored per-client logo
asset. -/
def clientLogoURL (cid : String) : String :=
  "http://localhost:5000/static/client/logo/" ++ cid ++ ".png"

/-- Modelled from the spec: URI validation for redirect URIs; the spec
leaves the grammar unspecified, modelled as requiring an http(s) scheme. -/
def isValidURI (s : String) : Bool :=
  "http://".data.isPrefixOf s.data || "https://".data.isPrefixOf s.data

/-- A submitted multipart form: named fields with their values. A field
is present exactly when its exact name occurs as a key. -/
abbrev Form := List (String × String)

/-- Modelled from the spec: read-by-id (§4.4 Get-by-id) — 200 with the
full record via the guard, 404 otherwise. -/
def getOne (store : Store) (uid cid : String) : Response :=
  match authorize store uid cid with
  | some c => Response.ok c
  | none => Response.notFound

/-- Modelled from the spec: client creation (§4.4 Create) — requires the
fields named exactly `client_name` and `client_uri` (unknown field names
never satisfy the requirement); logo optional, defaulting the logo URL;
assigns the fresh id and secret; owner is the caller. -/
def createClient (store : Store) (uid : String) (form : Form)
    (logo : Option String) (newId newSecret : String) : Response × Store :=
  match form.lookup "client_name", form.lookup "client_uri" with
  | some name, some uri =>
    let c : OAuthClient := {
      client_id := newId, owner := uid, client_name := name,
      client_uri := uri,
      logo_uri := match logo with
        | some _ => clientLogoURL newId
        | none => defaultLogoURL,
      client_secret := newSecret, redirect_uris := [], scope := "" }
    (Response.created c, store ++ [c])
  | _, _ => (Response.badRequest ErrKind.MissingField, store)

/-- Modelled from the spec: the tail of a full update after validation —
applies the logo update option (`update` consumes the attached asset,
`delete` resets to the default asset URL, `no-change` keeps the prior
logo) and persists the updated record. -/
def finishUpdate (store : Store) (cid : String) (c : OAuthClient)
    (name uri : String) (redirects : List String) (opt : String)
    (logo : Option String) : Response × Store :=
  if opt = "update" then
    match logo with
    | none => (Response.badRequest ErrKind.MissingField, store)
    | some _ =>
      let c' := { c with
        client_name := name
        client_uri := uri
        redirect_uris := redirects
        logo_uri := clientLogoURL cid }
      (Response.ok c', updateStore store cid c')
  else if opt = "delete" then
    let c' := { c with
      client_name := name
      client_uri := uri
      redirect_uris := redirects
      logo_uri := defaultLogoURL }
    (Response.ok c', updateStore store cid c')
  else
    let c' := { c with
      client_name := name
      client_uri := uri
      redirect_uris := redirects }
    (Response.ok c', updateStore store cid c')

/-- Modelled from the spec: full update (§4.4 Update) — guard first; then
`client_name` and `client_uri` required; `logo_update_option` must be one
of update/delete/no-change (400 `InvalidFieldFormat` otherwise); a
supplied `redirect_uri1` must pass URI validation; then the record is
updated and persisted. -/
def updateClient (store : Store) (uid cid : String) (form : Form)
    (logo : Option String) : Response × Store :=
  match authorize store uid cid with
  | none => (Response.notFound, store)
  | some c =>
    match form.lookup "client_name", form.lookup "client_uri" with
    | some name, some uri =>
      match form.lookup "logo_update_option" with
      | none => (Response.badRequest ErrKind.MissingField, store)
      | some opt =>
        if opt = "update" ∨ opt = "delete" ∨ opt = "no-change" then
          match form.lookup "redirect_uri1" with
          | some ru =>
            if isValidURI ru then
              finishUpdate store cid c name uri [ru] opt logo
            else (Response.badRequest ErrKind.InvalidFieldFormat, store)
          | none => finishUpdate store cid c name uri c.redirect_uris opt logo
        else (Response.badRequest ErrKind.InvalidFieldFormat, store)
    | _, _ => (Response.badRequest ErrKind.MissingField, store)

/-- Modelled from the spec: delete (§4.4 Delete) — hard delete after the
guard passes, 204 with empty body; 404 via the guard otherwise. -/
def deleteClient (store : Store) (uid cid : String) : Response × Store :=
  match authorize store uid cid with
  | none => (Response.notFound, store)
  | some _ => (Response.noContent, removeClient store cid)

/-- Modelled from the spec: secret rotation (§4.4) — regenerates
`client_secret` only (the fresh secret the generator produced is passed
in); all other fields are unchanged; 200 with the full representation. -/
def rotateSecret (store : Store) (uid cid newSecret : String) :
    Response × Store :=
  match authorize store uid cid with
  | none => (Response.notFound, store)
  | some c =>
    let c' := { c with client_secret := newSecret }
    (Response.ok c', updateStore store cid c')

/-- Modelled from the spec: scope patch (§4.4) — guard first, then the
patch engine against the current stored scope; on success the result is
persisted and returned with 200; engine errors map to the §7 taxonomy. -/
def patchScope (store : Store) (uid cid : String) (doc : List RawPatchOp) :
    Response × Store :=
  match authorize store uid cid with
  | none => (Response.notFound, store)
  | some c =>
    match applyPatch c.scope doc with
    | Except.ok newScope =>
      let c' := { c with scope := newScope }
      (Response.ok c', updateStore store cid c')
    | Except.error PatchError.MalformedPatch =>
      (Response.badRequest ErrKind.MalformedPatch, store)
    | Except.error PatchError.UnsupportedOperation =>
      (Response.badRequest ErrKind.UnsupportedOperation, store)
    | Except.error PatchError.InvalidScope =>
      (Response.badRequest ErrKind.InvalidFieldFormat, store)

/-- A concrete client record used to instantiate theorems with hypotheses. -/
def clientA : OAuthClient :=
  { client_id := "c1", owner := "alice", client_name := "Client One",
    client_uri := "http://one.example", logo_uri := defaultLogoURL,
    client_secret := "s1", redirect_uris := ["http://one.example/cb"],
    scope := "" }

/-- A concrete update form exercising the logo-delete path. -/
def deleteLogoForm : Form :=
  [("client_name", "New Name"), ("client_uri", "http://new.example"),
   ("logo_update_option", "delete")]

/-- A concrete update form with an unrecognized logo update option. -/
def badOptionForm : Form :=
  [("client_name", "New Name"), ("client_uri", "http://new.example"),
   ("logo_update_option", "replace-logo")]

theorem splitOnChar_ne_nil (sep : Char) (l : List Char) :
    splitOnChar sep l ≠ [] := by
  induction l with
  | nil => simp [splitOnChar]
  | cons c cs ih =>
    simp only [splitOnChar]
    split
    · simp
    · cases h : splitOnChar sep cs with
      | nil => simp
      | cons g gs => simp [h]

theorem joinSep_splitOnChar (sep : Char) (l : List Char) :
    joinSep sep (splitOnChar sep l) = l := by
  induction l with
  | nil => rfl
  | cons c cs ih =>
    simp only [splitOnChar]
    split
    · rename_i hc
      cases h : splitOnChar sep cs with
      | nil => exact absurd h (splitOnChar_ne_nil sep cs)
      | cons g gs =>
        rw [h] at ih
        simp [joinSep, ← ih, hc]
    · cases h : splitOnChar sep cs with
      | nil => exact absurd h (splitOnChar_ne_nil sep cs)
      | cons g gs =>
        rw [h] at ih
        cases gs with
        | nil => simp_all [joinSep]
        | cons g' gs' => simp_all [joinSep]

theorem not_mem_of_mem_splitOnChar (sep : Char) (l : List Char)
    (p : List Char) (hp : p ∈ splitOnChar sep l) : sep ∉ p := by
  induction l generalizing p with
  | nil =>
    simp [splitOnChar] at hp
    simp [hp]
  | cons c cs ih =>
    simp only [splitOnChar] at hp
    split at hp
    · rcases List.mem_cons.mp hp with h | h
      · simp [h]
      · exact ih p h
    · rename_i hc
      cases h : splitOnChar sep cs with
      | nil => exact absurd h (splitOnChar_ne_nil sep cs)
      | cons g gs =>
        rw [h] at hp
        rcases List.mem_cons.mp hp with h' | h'
        · subst h'
          intro hm
          rcases List.mem_cons.mp hm with h'' | h''
          · exact hc h''.symm
          · exact ih g (h ▸ List.mem_cons_self g gs) h''
        · exact ih p (h ▸ List.mem_cons_of_mem g h')

theorem splitOnChar_of_not_mem (sep : Char) (g : List Char) (hg : sep ∉ g) :
    splitOnChar sep g = [g] := by
  induction g with
  | nil => rfl
  | cons c cs ih =>
    simp only [List.mem_cons, not_or] at hg
    simp only [splitOnChar]
    rw [if_neg (fun h => hg.1 h.symm), ih hg.2]

theorem splitOnChar_append (sep : Char) (g rest : List Char) (hg : sep ∉ g) :
    splitOnChar sep (g ++ sep :: rest) = g :: splitOnChar sep rest := by
  induction g with
  | nil => simp [splitOnChar]
  | cons c cs ih =>
    simp only [List.mem_cons, not_or] at hg
    simp only [List.cons_append, splitOnChar]
    rw [if_neg (fun h => hg.1 h.symm)]
    simp only [List.append_eq, ih hg.2]

theorem splitOnChar_joinSep (sep : Char) (gs : List (List Char))
    (hne : gs ≠ []) (hfree : ∀ g ∈ gs, sep ∉ g) :
    splitOnChar sep (joinSep sep gs) = gs := by
  induction gs with
  | nil => exact absurd rfl hne
  | cons g gs' ih =>
    cases gs' with
    | nil =>
      simp only [joinSep]
      exact splitOnChar_of_not_mem sep g (hfree g (List.mem_cons_self g []))
    | cons g' gs'' =>
      simp only [joinSep]
      rw [splitOnChar_append sep g _ (hfree g (List.mem_cons_self g _))]
      rw [ih (by simp) (fun x hx => hfree x (List.mem_cons_of_mem g hx))]

theorem not_mem_joinSep (sep c : Char) (gs : List (List Char))
    (hne : c ≠ sep) (hfree : ∀ g ∈ gs, c ∉ g) : c ∉ joinSep sep gs := by
  induction gs with
  | nil => simp [joinSep]
  | cons g gs' ih =>
    cases gs' with
    | nil =>
      simp only [joinSep]
      exact hfree g (List.mem_cons_self g [])
    | cons g' gs'' =>
      simp only [joinSep, List.mem_append, List.mem_cons]
      push_neg
      refine ⟨hfree g (List.mem_cons_self g _), hne, ?_⟩
      exact ih (fun x hx => hfree x (List.mem_cons_of_mem g hx))

theorem colon_not_mem_of_resource (r : List Char)
    (hr : r ∈ reservedResources) : ':' ∉ r := by
  simp only [reservedResources, List.mem_singleton] at hr
  subst hr
  decide

theorem seps_not_mem_of_field (r f : List Char)
    (hf : f ∈ reservedFields r) : ':' ∉ f ∧ '.' ∉ f := by
  simp only [reservedFields] at hf
  split at hf
  · rcases List.mem_cons.mp hf with h | h
    · subst h; decide
    · simp only [List.mem_singleton] at h
      subst h; decide
  · simp at hf

theorem seps_not_mem_of_permission (p : List Char)
    (hp : p ∈ reservedPermissions) : ':' ∉ p ∧ '.' ∉ p := by
  rcases List.mem_cons.mp hp with h | h
  · subst h; decide
  · simp only [List.mem_singleton] at h
    subst h; decide

/-- The operational token validator agrees with the spec's declarative
grammar on every character list. -/
theorem validateToken_iff (t : List Char) :
    validateToken t = true ↔ TokenWellFormed t := by
  constructor
  · intro h
    unfold validateToken at h
    split at h
    · rename_i r rest hsplit
      split at h
      · rename_i f ps hsplit2
        simp only [Bool.and_eq_true, decide_eq_true_eq, List.all_eq_true,
          Bool.not_eq_true'] at h
        obtain ⟨⟨⟨hr, hf⟩, hps⟩, hall⟩ := h
        refine ⟨r, f, ps, hr, hf, fun hnil => by simp [hnil] at hps,
          fun p hp => hall p hp, ?_⟩
        have h1 := joinSep_splitOnChar ':' t
        rw [hsplit] at h1
        have h2 := joinSep_splitOnChar '.' rest
        rw [hsplit2] at h2
        rw [← h1]
        simp [joinSep, h2]
      · exact absurd h (by simp)
    · exact absurd h (by simp)
  · rintro ⟨r, f, ps, hr, hf, hps, hperm, rfl⟩
    have hrest : ∀ g ∈ f :: ps, '.' ∉ g := by
      intro g hg
      rcases List.mem_cons.mp hg with h | h
      · rw [h]; exact (seps_not_mem_of_field r f hf).2
      · exact (seps_not_mem_of_permission g (hperm g h)).2
    have hcolon : ':' ∉ joinSep '.' (f :: ps) := by
      apply not_mem_joinSep _ _ _ (by decide)
      intro g hg
      rcases List.mem_cons.mp hg with h | h
      · rw [h]; exact (seps_not_mem_of_field r f hf).1
      · exact (seps_not_mem_of_permission g (hperm g h)).1
    have hsplit : splitOnChar ':' (r ++ ':' :: joinSep '.' (f :: ps)) =
        [r, joinSep '.' (f :: ps)] := by
      rw [splitOnChar_append ':' r _ (colon_not_mem_of_resource r hr)]
      rw [splitOnChar_of_not_mem ':' _ hcolon]
    have hsplit2 : splitOnChar '.' (joinSep '.' (f :: ps)) = f :: ps :=
      splitOnChar_joinSep '.' (f :: ps) (by simp) hrest
    unfold validateToken
    simp only [hsplit, hsplit2]
    simp only [Bool.and_eq_true, decide_eq_true_eq, List.all_eq_true,
      Bool.not_eq_true']
    refine ⟨⟨⟨hr, hf⟩, ?_⟩, fun p hp => hperm p hp⟩
    cases ps with
    | nil => exact absurd rfl hps
    | cons hd tl => rfl

theorem authorize_eq_none_of (store : Store) (uid cid : String)
    (h : ∀ c ∈ store, c.client_id = cid → c.owner ≠ uid) :
    authorize store uid cid = none := by
  unfold authorize getClientById
  cases hf : store.find? (fun c => c.client_id == cid) with
  | none => rfl
  | some c =>
    have hmem : c ∈ store := List.mem_of_find?_eq_some hf
    have hid : c.client_id = cid := by
      have := List.find?_some hf
      simpa using this
    have hown : c.owner ≠ uid := h c hmem hid
    simp [hown]

theorem applyPatch_replace (old v : String) (hv : validateScope v = true) :
    applyPatch old [⟨some "replace", some "/", some v⟩] =
      Except.ok (canonicalizeScope v) := by
  simp [applyPatch, hv]

theorem applyPatch_missing_field (s : String) (p : RawPatchOp)
    (h : p.op = none ∨ p.path = none ∨ p.value = none) :
    applyPatch s [p] = Except.error PatchError.MalformedPatch := by
  obtain ⟨o, pa, v⟩ := p
  rcases h with h | h | h
  · have h' : o = none := h
    subst h'
    cases pa <;> cases v <;> rfl
  · have h' : pa = none := h
    subst h'
    cases o <;> cases v <;> rfl
  · have h' : v = none := h
    subst h'
    cases o <;> cases pa <;> rfl

theorem getClientById_removeClient (store : Store) (cid : String) :
    getClientById (removeClient store cid) cid = none := by
  unfold getClientById removeClient
  rw [List.find?_eq_none]
  intro x hx
  have hpred := (List.mem_filter.mp hx).2
  simp only [Bool.not_eq_true'] at hpred
  simp [hpred]

/-- C1: any operation (get, update, delete, secret rotation, scope patch)
on a client id for which the caller owns no client — whether the id
belongs to another user's client or to no client at all — produces the
bare `notFound` response (the same value in both cases, so status and
body shape leak nothing), and mutating operations leave the store
untouched. -/
theorem ownership_mismatch_indistinguishable (store : Store)
    (uid cid : String) (form : Form) (logo : Option String) (ns : String)
    (doc : List RawPatchOp)
    (h : ∀ c ∈ store, c.client_id = cid → c.owner ≠ uid) :
    getOne store uid cid = Response.notFound ∧
    updateClient store uid cid form logo = (Response.notFound, store) ∧
    deleteClient store uid cid = (Response.notFound, store) ∧
    rotateSecret store uid cid ns = (Response.notFound, store) ∧
    patchScope store uid cid doc = (Response.notFound, store) := by
  have ha := authorize_eq_none_of store uid cid h
  refine ⟨?_, ?_, ?_, ?_, ?_⟩ <;>
    simp [getOne, updateClient, deleteClient, rotateSecret, patchScope, ha]

/-- C1 witness: the caller `bob` operating on `alice`'s existing client
`c1` gets exactly the responses of a nonexistent id. -/
theorem ownership_mismatch_indistinguishable_witness :
    getOne [clientA] "bob" "c1" = Response.notFound ∧
    updateClient [clientA] "bob" "c1" [] none = (Response.notFound, [clientA]) ∧
    deleteClient [clientA] "bob" "c1" = (Response.notFound, [clientA]) ∧
    rotateSecret [clientA] "bob" "c1" "fresh" = (Response.notFound, [clientA]) ∧
    patchScope [clientA] "bob" "c1" [] = (Response.notFound, [clientA]) :=
  ownership_mismatch_indistinguishable [clientA] "bob" "c1" [] none "fresh" []
    (by decide)

/-- C2: a single whole-scope replace patch with a grammatically valid
value succeeds and returns exactly the canonical form of the value,
whatever the current scope is: full replacement, never a merge with the
old scope. -/
theorem replace_patch_overwrites (old v : String)
    (hv : validateScope v = true) :
    applyPatch old [⟨some "replace", some "/", some v⟩] =
      Except.ok (canonicalizeScope v) :=
  applyPatch_replace old v hv

/-- C2 witness: replacing the scope `user:username.read` with
`user:username.read.write user:pfp.read` yields that value's canonical
form; the old narrower permission does not survive. -/
theorem replace_patch_overwrites_witness :
    applyPatch "user:username.read"
      [⟨some "replace", some "/",
        some "user:username.read.write user:pfp.read"⟩] =
      Except.ok (canonicalizeScope "user:username.read.write user:pfp.read") :=
  replace_patch_overwrites "user:username.read"
    "user:username.read.write user:pfp.read" (by decide)

/-- C3: a single-element patch document whose element is missing `op`,
`path` or `value` is rejected by the engine with `MalformedPatch`, and at
the operation level the response is a 400 `MalformedPatch` with the store
(hence the stored scope) unchanged — for each of the three missing
fields. -/
theorem missing_patch_field_malformed (store : Store) (uid cid : String)
    (c : OAuthClient) (p : RawPatchOp)
    (hauth : authorize store uid cid = some c)
    (hmiss : p.op = none ∨ p.path = none ∨ p.value = none) :
    (∀ s : String, applyPatch s [p] = Except.error PatchError.MalformedPatch) ∧
    patchScope store uid cid [p] =
      (Response.badRequest ErrKind.MalformedPatch, store) := by
  constructor
  · intro s
    exact applyPatch_missing_field s p hmiss
  · simp [patchScope, hauth, applyPatch_missing_field c.scope p hmiss]

/-- C3 witness: a patch element without `op` on the caller's own client
yields the 400 `MalformedPatch` response and leaves the store unchanged. -/
theorem missing_patch_field_malformed_witness :
    (∀ s : String,
      applyPatch s [⟨none, some "/", some "user:username.read"⟩] =
        Except.error PatchError.MalformedPatch) ∧
    patchScope [clientA] "alice" "c1"
        [⟨none, some "/", some "user:username.read"⟩] =
      (Response.badRequest ErrKind.MalformedPatch, [clientA]) :=
  missing_patch_field_malformed [clientA] "alice" "c1" clientA
    ⟨none, some "/", some "user:username.read"⟩ (by decide) (Or.inl rfl)

/-- C4: whole-scope validation accepts a scope string exactly when every
whitespace-separated token matches the declarative reserved grammar
(closed resource set, closed per-resource field set, permissions from
read/write, at least one permission); in particular the token
`user;username.read.write` (wrong separator) and the token
`user:age.read.write` (unreserved field) are rejected, and a replace
patch carrying either value fails with `InvalidScope`. -/
theorem validate_iff_reserved_grammar :
    (∀ S : String,
      validateScope S = true ↔ ∀ t ∈ scopeTokens S, TokenWellFormed t) ∧
    validateScope "user;username.read.write" = false ∧
    validateScope "user:age.read.write" = false ∧
    (∀ old : String,
      applyPatch old [⟨some "replace", some "/",
          some "user;username.read.write"⟩] =
        Except.error PatchError.InvalidScope) ∧
    (∀ old : String,
      applyPatch old [⟨some "replace", some "/",
          some "user:age.read.write"⟩] =
        Except.error PatchError.InvalidScope) := by
  refine ⟨?_, by decide, by decide, ?_, ?_⟩
  · intro S
    rw [validateScope, List.all_eq_true]
    exact forall₂_congr fun t _ => validateToken_iff t
  · intro old
    have hv : validateScope "user;username.read.write" = false := by decide
    simp [applyPatch, hv]
  · intro old
    have hv : validateScope "user:age.read.write" = false := by decide
    simp [applyPatch, hv]

/-- C5: creating a client whose form lacks a field named exactly
`client_name` or exactly `client_uri` fails with 400 `MissingField` and
adds nothing to the store, no matter what other (possibly misnamed)
fields the form carries. -/
theorem create_missing_required_field (store : Store) (uid : String)
    (form : Form) (logo : Option String) (newId newSecret : String)
    (h : form.lookup "client_name" = none ∨ form.lookup "client_uri" = none) :
    createClient store uid form logo newId newSecret =
      (Response.badRequest ErrKind.MissingField, store) := by
  rcases h with h | h
  · cases h2 : form.lookup "client_uri" <;> simp [createClient, h, h2]
  · cases h2 : form.lookup "client_name" <;> simp [createClient, h, h2]

/-- C5 witness: a form supplying the same values under the names `name`
and `uri` instead of `client_name` and `client_uri` is still rejected
with `MissingField` and creates nothing. -/
theorem create_missing_required_field_witness :
    createClient [] "alice" [("name", "My App"), ("uri", "http://my.example")]
      none "newid" "newsecret" =
      (Response.badRequest ErrKind.MissingField, []) :=
  create_missing_required_field [] "alice"
    [("name", "My App"), ("uri", "http://my.example")] none "newid" "newsecret"
    (Or.inl (by decide))

/-- C6: rotating the secret of a client the caller owns returns 200 with
the full record whose `client_secret` is the freshly generated secret
(different from the old one, as the generator guarantees), stores that
record, and leaves every other field — id, owner, name, uri, logo, the
redirect URIs and the scope — exactly as it was. -/
theorem rotate_secret_changes_only_secret (store : Store)
    (uid cid ns : String) (c : OAuthClient)
    (hauth : authorize store uid cid = some c)
    (hns : ns ≠ c.client_secret) :
    rotateSecret store uid cid ns =
      (Response.ok { c with client_secret := ns },
       updateStore store cid { c with client_secret := ns }) ∧
    ({ c with client_secret := ns }).client_secret ≠ c.client_secret ∧
    ({ c with client_secret := ns }).client_id = c.client_id ∧
    ({ c with client_secret := ns }).owner = c.owner ∧
    ({ c with client_secret := ns }).client_name = c.client_name ∧
    ({ c with client_secret := ns }).client_uri = c.client_uri ∧
    ({ c with client_secret := ns }).logo_uri = c.logo_uri ∧
    ({ c with client_secret := ns }).redirect_uris = c.redirect_uris ∧
    ({ c with client_secret := ns }).scope = c.scope := by
  exact ⟨by simp [rotateSecret, hauth], hns, rfl, rfl, rfl, rfl, rfl, rfl, rfl⟩

/-- C6 witness: rotating `clientA`'s secret to the fresh value `s2`
changes only the secret. -/
theorem rotate_secret_changes_only_secret_witness :
    rotateSecret [clientA] "alice" "c1" "s2" =
      (Response.ok { clientA with client_secret := "s2" },
       updateStore [clientA] "c1" { clientA with client_secret := "s2" }) ∧
    ({ clientA with client_secret := "s2" }).client_secret ≠
      clientA.client_secret ∧
    ({ clientA with client_secret := "s2" }).client_id = clientA.client_id ∧
    ({ clientA with client_secret := "s2" }).owner = clientA.owner ∧
    ({ clientA with client_secret := "s2" }).client_name =
      clientA.client_name ∧
    ({ clientA with client_secret := "s2" }).client_uri = clientA.client_uri ∧
    ({ clientA with client_secret := "s2" }).logo_uri = clientA.logo_uri ∧
    ({ clientA with client_secret := "s2" }).redirect_uris =
      clientA.redirect_uris ∧
    ({ clientA with client_secret := "s2" }).scope = clientA.scope :=
  rotate_secret_changes_only_secret [clientA] "alice" "c1" "s2" clientA
    (by decide) (by decide)

/-- C7: a well-formed update whose `logo_update_option` is `delete`
succeeds with 200, and the returned and stored record's `logo_uri` is the
deterministic default asset URL — whatever logo the client had before and
whether or not a file is attached. -/
theorem update_logo_delete_resets_default (store : Store) (uid cid : String)
    (c : OAuthClient) (form : Form) (logo : Option String)
    (name uri : String)
    (hauth : authorize store uid cid = some c)
    (hn : form.lookup "client_name" = some name)
    (hu : form.lookup "client_uri" = some uri)
    (ho : form.lookup "logo_update_option" = some "delete")
    (hr : ∀ ru, form.lookup "redirect_uri1" = some ru →
      isValidURI ru = true) :
    ∃ c', updateClient store uid cid form logo =
        (Response.ok c', updateStore store cid c') ∧
      c'.logo_uri = defaultLogoURL := by
  have hopt : (("delete":String) = "update" ∨ ("delete":String) = "delete" ∨
      ("delete":String) = "no-change") := by decide
  have hne : ¬ (("delete":String) = "update") := by decide
  cases hru : form.lookup "redirect_uri1" with
  | none =>
    simp only [updateClient, hauth, hn, hu, ho, hru, if_pos hopt]
    unfold finishUpdate
    rw [if_neg hne, if_pos rfl]
    exact ⟨_, rfl, rfl⟩
  | some ru =>
    simp only [updateClient, hauth, hn, hu, ho, hru, if_pos hopt,
      if_pos (hr ru hru)]
    unfold finishUpdate
    rw [if_neg hne, if_pos rfl]
    exact ⟨_, rfl, rfl⟩

/-- C7 witness: deleting the logo of `clientA` (a client that currently
has the default logo and could have had any other) yields 200 and the
default asset URL. -/
theorem update_logo_delete_resets_default_witness :
    ∃ c', updateClient [clientA] "alice" "c1" deleteLogoForm none =
        (Response.ok c', updateStore [clientA] "c1" c') ∧
      c'.logo_uri = defaultLogoURL :=
  update_logo_delete_resets_default [clientA] "alice" "c1" clientA
    deleteLogoForm none "New Name" "http://new.example" (by decide)
    (by decide) (by decide) (by decide)
    (by intro ru h; simp [deleteLogoForm, List.lookup] at h)

/-- C8: deleting a client the caller owns answers 204 (empty body) and
removes the record; deleting the same id again — like deleting any id
the store does not hold — answers 404 and leaves the store as it is. -/
theorem delete_twice (store : Store) (uid cid : String) (c : OAuthClient)
    (hauth : authorize store uid cid = some c) :
    deleteClient store uid cid = (Response.noContent, removeClient store cid) ∧
    deleteClient (removeClient store cid) uid cid =
      (Response.notFound, removeClient store cid) ∧
    (∀ s : Store, getClientById s cid = none →
      deleteClient s uid cid = (Response.notFound, s)) := by
  refine ⟨by simp [deleteClient, hauth], ?_, ?_⟩
  · have h2 := getClientById_removeClient store cid
    simp [deleteClient, authorize, h2]
  · intro s hs
    simp [deleteClient, authorize, hs]

/-- C8 witness: the first delete of `c1` answers 204 and removes it; the
second answers 404 and changes nothing. -/
theorem delete_twice_witness :
    deleteClient [clientA] "alice" "c1" =
      (Response.noContent, removeClient [clientA] "c1") ∧
    deleteClient (removeClient [clientA] "c1") "alice" "c1" =
      (Response.notFound, removeClient [clientA] "c1") ∧
    (∀ s : Store, getClientById s "c1" = none →
      deleteClient s "alice" "c1" = (Response.notFound, s)) :=
  delete_twice [clientA] "alice" "c1" clientA (by decide)

/-- C9: an update request on an owned client carrying `client_name` and
`client_uri` but a `logo_update_option` outside update/delete/no-change
fails with 400 `InvalidFieldFormat` and leaves the store unchanged. -/
theorem update_invalid_logo_option_rejected (store : Store)
    (uid cid : String) (c : OAuthClient) (form : Form)
    (logo : Option String) (name uri opt : String)
    (hauth : authorize store uid cid = some c)
    (hn : form.lookup "client_name" = some name)
    (hu : form.lookup "client_uri" = some uri)
    (ho : form.lookup "logo_update_option" = some opt)
    (h1 : opt ≠ "update") (h2 : opt ≠ "delete") (h3 : opt ≠ "no-change") :
    updateClient store uid cid form logo =
      (Response.badRequest ErrKind.InvalidFieldFormat, store) := by
  have hcond : ¬(opt = "update" ∨ opt = "delete" ∨ opt = "no-change") := by
    rintro (h | h | h)
    exacts [h1 h, h2 h, h3 h]
  simp only [updateClient, hauth, hn, hu, ho, if_neg hcond]

/-- C9 witness: the unrecognized option `replace-logo` is rejected with
`InvalidFieldFormat` and the store is untouched. -/
theorem update_invalid_logo_option_rejected_witness :
    updateClient [clientA] "alice" "c1" badOptionForm none =
      (Response.badRequest ErrKind.InvalidFieldFormat, [clientA]) :=
  update_invalid_logo_option_rejected [clientA] "alice" "c1" clientA
    badOptionForm none "New Name" "http://new.example" "replace-logo"
    (by decide) (by decide) (by decide) (by decide) (by decide) (by decide)
    (by decide)

/-- C10: on a client whose stored scope is the empty string, a well-formed
single replace-whole patch with a grammatically valid value succeeds with
200 and stores the value's canonical form — the engine never looks at the
prior scope, so an empty (or any) prior scope is accepted. -/
theorem patch_accepts_empty_current_scope (store : Store)
    (uid cid : String) (c : OAuthClient) (v : String)
    (hauth : authorize store uid cid = some c)
    (hscope : c.scope = "")
    (hv : validateScope v = true) :
    patchScope store uid cid [⟨some "replace", some "/", some v⟩] =
      (Response.ok { c with scope := canonicalizeScope v },
       updateStore store cid { c with scope := canonicalizeScope v }) := by
  simp [patchScope, hauth, applyPatch_replace c.scope v hv]

/-- C10 witness: `clientA` has the empty scope; the replace patch with
`user:username.read.write` succeeds and stores its canonical form. -/
theorem patch_accepts_empty_current_scope_witness :
    patchScope [clientA] "alice" "c1"
        [⟨some "replace", some "/", some "user:username.read.write"⟩] =
      (Response.ok
        { clientA with scope := canonicalizeScope "user:username.read.write" },
       updateStore [clientA] "c1"
        { clientA with scope := canonicalizeScope "user:username.read.write" }) :=
  patch_accepts_empty_current_scope [clientA] "alice" "c1" clientA
    "user:username.read.write" (by decide) (by decide) (by decide)
